import Mathlib

/-!
Verification of the natural-language specification of
`MueLu::BlockedGaussSeidelSmoother` (Trilinos,
`packages/muelu/src/Smoothers/BlockedSmoothers/MueLu_BlockedGaussSeidelSmoother_def.hpp`)
against a shallow embedding of the code.

Scalars are modelled as integers: the engine only performs ring operations
on vector entries (copy, add, scalar multiply, subtract), the sub-smoother
solves are opaque functions, and no claim involves division, so a
commutative ring with decidable equality is a faithful carrier for the
`Scalar` template parameter.  Multivectors are single-column vectors
(`List SC`), blocked multivectors are lists of sub-vectors.  External
Xpetra/Teuchos collaborators that are not part of the repository snapshot
under `src/` (map extractors, `bgs_apply`, the vector primitives, the
`Level` dependency store) are modelled from the specification interface
description in §6 of the spec; each such definition carries a
`Modelled from the spec:` note.  Everything else is translated directly
from the `_def.hpp` source; line numbers refer to that file.
-/

namespace MueLu

/-- Scalar carrier of the embedding (stands for the `Scalar` template
parameter; see the header comment for why a ring with decidable equality
suffices). -/
abbrev SC := ℤ

/-- A (single-column) multivector. -/
abbrev Vec := List SC

/-- A blocked multivector: one sub-vector per block. -/
abbrev BVec := List Vec

/-- Error taxonomy.  Each constructor corresponds to a `TEUCHOS_TEST_FOR_EXCEPTION`
throw site of the source, named following the taxonomy of §7 of the spec:
`BadCast` is the `Exceptions::BadCast` at `Setup` line 104 (the spec calls it
`TypeMismatch`); `ConfigurationError` covers the two block-count checks at
`Setup` lines 107-108 (literally `Exceptions::RuntimeError` in the code);
`InvalidArgument` is the negative-position check in `AddFactoryManager`
line 56 (also literally a `RuntimeError`); `RuntimeError` covers the
`Apply`-before-`Setup` check (line 133) and the operator cast check inside
`Apply` (line 168). -/
inductive MueLuError where
  | BadCast : MueLuError
  | ConfigurationError : MueLuError
  | InvalidArgument : MueLuError
  | RuntimeError : MueLuError
deriving DecidableEq, Repr

/-- Modelled from the spec: a Block Partition Descriptor (`Xpetra::MapExtractor`,
not under `src/`): "describes how a flat vector's index space decomposes into
`N` ... sub-spaces" together with the compact/preserving (Thyra) mode flag.
The model records the block sizes and the mode flag. -/
structure MapExtractor where
  sizes : List Nat
  thyraMode : Bool
deriving DecidableEq, Repr

/-- Number of blocks of a partition descriptor (`NumMaps()`). -/
def MapExtractor.NumMaps (me : MapExtractor) : Nat := me.sizes.length

/-- Modelled from the spec: `ExtractSubVector(full, index, extractionMode) -> sub`
returns the `index`-th sub-vector of a blocked vector.  The extraction mode
only affects index labelling (compact vs. preserving), never the numeric
entries, so the model carries the flag but ignores it. -/
def MapExtractor.ExtractVector (v : BVec) (i : Nat) (_thyraMode : Bool) : Vec :=
  v.getD i []

/-- Modelled from the spec: `MapExtractor::getVector(i, numVectors, mode)`
allocates a zero-initialized sub-vector shaped like block `i`
("allocate a zero-initialized row-`i`-shaped work vector"). -/
def MapExtractor.getVector (me : MapExtractor) (i : Nat) (_thyraMode : Bool) : Vec :=
  List.replicate (me.sizes.getD i 0) 0

/-- Modelled from the spec: wrapping a flat vector into a blocked multivector
(`BlockedMultiVector(blockedMap, rcp)`) splits its entries into consecutive
sub-vectors whose lengths are the descriptor's block sizes. -/
def splitVec : List Nat → Vec → BVec
  | [], _ => []
  | n :: ns, v => v.take n :: splitVec ns (v.drop n)

/-- Modelled from the spec: `BlockedMultiVector::Merge()` flattens the blocked
vector back into a single flat vector. -/
def mergeVec (bv : BVec) : Vec := bv.flatten

/-- Modelled from the spec: `putScalar(zero)` sets every entry of every block
to the additive identity ("set all of `x` to the additive identity"). -/
def putScalarZero (bv : BVec) : BVec := bv.map (List.map fun _ => (0 : SC))

/-- Modelled from the spec: elementwise `this->update(alpha, A, beta)` with
`beta = 1`, i.e. `this ← this + alpha • A`, as used in
`Xi->update(omega, *tXi, 1.0)` at line 266.  Xpetra requires both vectors to
share a map; on the model's lists the zip stops at the shorter argument. -/
def vecUpdate (alpha : SC) (a : Vec) (x : Vec) : Vec :=
  List.zipWith (fun xi ai => xi + alpha * ai) x a

/-- Modelled from the spec: the Block-Partitioned Operator interface of §6
(`Xpetra::BlockedCrsMatrix`, not under `src/`): row and column partition
descriptors plus the row-contribution operation
`RowContribution(x, rowIndex) -> partial product vector`, i.e. the value of
`A[i][:] · x` as a block-`i`-shaped vector. -/
structure BlockedCrsMatrix where
  rangeMapExtractor : MapExtractor
  domainMapExtractor : MapExtractor
  rowContribution : Nat → BVec → Vec

/-- Number of block rows (`bA->Rows()`), which Xpetra derives from the range
map extractor. -/
def BlockedCrsMatrix.Rows (A : BlockedCrsMatrix) : Nat := A.rangeMapExtractor.NumMaps

/-- Number of block columns (`bA->Cols()`), derived from the domain map
extractor. -/
def BlockedCrsMatrix.Cols (A : BlockedCrsMatrix) : Nat := A.domainMapExtractor.NumMaps

/-- Modelled from the spec: `bA->bgs_apply(X, residual, i, NO_TRANS, -1.0, 1.0)`
(line 253) subtracts "the row's contribution `A[i][:] · x` from `r` using the
Operator's row-contribution operation, restricted to row `i`": block `i` of
the result is `residual_i - (A[i][:] · X)` and all other blocks are left
untouched. -/
def BlockedCrsMatrix.bgs_apply (A : BlockedCrsMatrix) (x : BVec) (r : BVec) (i : Nat) : BVec :=
  r.set i (List.zipWith (fun rv cv => rv - cv) (r.getD i []) (A.rowContribution i x))

/-- The `Matrix` base class: an operator that may or may not be a
`BlockedCrsMatrix`.  A non-blocked matrix's contents are never used by this
smoother, so `plain` carries no data. -/
inductive Matrix where
  | plain : Matrix
  | blocked : BlockedCrsMatrix → Matrix

/-- The `rcp_dynamic_cast<BlockedCrsMatrix>` downcast; `none` models a null
cast result. -/
def Matrix.toBlockedCrsMatrix : Matrix → Option BlockedCrsMatrix
  | Matrix.plain => none
  | Matrix.blocked bA => some bA

/-- Modelled from the spec: the per-row Sub-Smoother capability of §6,
`Apply(correctionOut, residualIn, zeroInitialGuess)`.  `apply t r z` returns
the contents of the correction out-vector whose initial contents were `t`,
given residual `r` and flag `z`; the out-vector keeps its map, hence the
length invariant. -/
structure SubSmoother where
  apply : Vec → Vec → Bool → Vec
  apply_length : ∀ t r z, (apply t r z).length = t.length

instance : Inhabited SubSmoother :=
  ⟨⟨fun t _ _ => t, fun _ _ _ => rfl⟩⟩

/-- Modelled from the spec: one registered factory-manager entry together with
what the `Level` dependency store hands out under it during `Setup`: the
bound sub-smoother (`currentLevel.Get("PreSmoother", ...)`, line 120, which
the spec requires to already be ready) and whether the diagonal sub-block
matrix (`currentLevel.Get("A", ...)`, line 124) is itself block-partitioned. -/
structure FactManagerEntry where
  smoother : SubSmoother
  subAIsBlocked : Bool

/-- The member state of a `BlockedGaussSeidelSmoother` object.  `sweeps` and
`dampingFactor` model the `"Sweeps"` (a `LocalOrdinal`, hence `Int`) and
`"Damping factor"` entries of the parameter list; the map extractor members
are null-initialized `RCP`s in the code, modelled by the empty descriptor. -/
structure SmootherState where
  FactManager_ : List FactManagerEntry
  isSetup : Bool
  A_ : Option Matrix
  Inverse_ : List SubSmoother
  bIsBlockedOperator_ : List Bool
  rangeMapExtractor_ : MapExtractor
  domainMapExtractor_ : MapExtractor
  sweeps : Int
  dampingFactor : SC

/-- The freshly constructed smoother: empty registry, not set up, null
operator, and the parameter-list defaults `Sweeps = 1`,
`Damping factor = 1.0` from `GetValidParameterList` (lines 44-52). -/
def SmootherState.default : SmootherState :=
  { FactManager_ := []
    isSetup := false
    A_ := none
    Inverse_ := []
    bIsBlockedOperator_ := []
    rangeMapExtractor_ := ⟨[], false⟩
    domainMapExtractor_ := ⟨[], false⟩
    sweeps := 1
    dampingFactor := 1 }

/-- Translation of `BlockedGaussSeidelSmoother::AddFactoryManager` (lines
54-73).  Returns the object state after the call together with the thrown
error, if any: a negative `pos` throws before any mutation; `pos` below the
current size replaces, `pos` equal to the size appends, and `pos` beyond the
size appends anyway after printing a warning. -/
def AddFactoryManager (s : SmootherState) (fm : FactManagerEntry) (pos : Int) :
    SmootherState × Option MueLuError :=
  if pos < 0 then (s, some MueLuError.InvalidArgument)
  else
    let myPos := pos.toNat
    if myPos < s.FactManager_.length then
      ({ s with FactManager_ := s.FactManager_.set myPos fm }, none)
    else
      ({ s with FactManager_ := s.FactManager_ ++ [fm] }, none)

/-- Translation of `BlockedGaussSeidelSmoother::Setup` (lines 94-129), with
the `Level` indirection folded into `FactManagerEntry` (the level always
supplies `"A"` as `levelA` and the per-entry `"PreSmoother"`/`"A"` as the
entry's fields).  Returns the object state at exit together with the thrown
error, if any.  Note the source order: `A_` is assigned (line 102) before
the cast check (line 104) and the two block-count checks (lines 107-108);
the map extractors are overwritten (lines 111-112); the per-row captures are
`push_back`-appended (lines 121, 125) without clearing the vectors; finally
the setup flag is raised (line 128).  A `Setup` call on an already-set-up
object only prints a warning (line 99). -/
def Setup (s : SmootherState) (levelA : Matrix) : SmootherState × Option MueLuError :=
  let s1 := { s with A_ := some levelA }
  match levelA.toBlockedCrsMatrix with
  | none => (s1, some MueLuError.BadCast)
  | some bA =>
    if bA.Rows ≠ s.FactManager_.length then (s1, some MueLuError.ConfigurationError)
    else if bA.Cols ≠ s.FactManager_.length then (s1, some MueLuError.ConfigurationError)
    else
      ({ s1 with
          rangeMapExtractor_ := bA.rangeMapExtractor
          domainMapExtractor_ := bA.domainMapExtractor
          Inverse_ := s1.Inverse_ ++ s.FactManager_.map (fun fm => fm.smoother)
          bIsBlockedOperator_ :=
            s1.bIsBlockedOperator_ ++ s.FactManager_.map (fun fm => fm.subAIsBlocked)
          isSetup := true }, none)

/-- Translation of `BlockedGaussSeidelSmoother::Copy` (lines 276-279):
`rcp(new BlockedGaussSeidelSmoother(*this))` copy-constructs a new object.
Neither the class nor its bases declares a user copy constructor, so this is
the C++ implicitly-generated memberwise copy of the entire object state. -/
def Copy (s : SmootherState) : SmootherState := s

/-- Observation record of one inner-loop iteration of `Apply` (one `(run, i)`
pair of the nested loops at lines 245-267): the loop indices, the solution
vector before and after the iteration, whether the `bgs_apply` matrix-vector
product at line 253 was executed, the sub-residual `ri` handed to the
sub-smoother, the initial contents `tXiIn` of the correction work vector,
the literal third argument `zeroGuessArg` of the sub-smoother call at line
263, and the returned correction `tXiOut`. -/
structure StepEvent where
  run : Int
  row : Nat
  xBefore : BVec
  matvecApplied : Bool
  ri : Vec
  tXiIn : Vec
  zeroGuessArg : Bool
  tXiOut : Vec
  xAfter : BVec
deriving DecidableEq, Repr

/-- The configuration an `Apply` call works with after its set-up phase: the
blocked operator, the registered sub-smoothers, the map extractors stored at
`Setup` time, the (blocked) right-hand side, the damping factor and the
`InitialGuessIsZero` flag. -/
structure ApplyConfig where
  bA : BlockedCrsMatrix
  Inverse : List SubSmoother
  rangeME : MapExtractor
  domME : MapExtractor
  b : BVec
  omega : SC
  zig : Bool

/-- One iteration of the inner block-row loop of `Apply` (lines 248-267):
`residual = B` (line 251, a full copy), the conditional `bgs_apply`
(lines 252-253, skipped exactly when the initial guess is zero and this is
the first row of the first sweep), the sub-vector extractions (lines
258-260), the sub-smoother call with literal third argument `false`
(line 263), and the damped update `Xi->update(omega, *tXi, 1.0)` (line 266),
which writes block `i` of `x` through the extracted view.  Returns the
updated `x` and the observation record. -/
def rowStep (cfg : ApplyConfig) (run : Int) (i : Nat) (inv : SubSmoother) (x : BVec) :
    BVec × StepEvent :=
  let doMatvec : Bool := (!cfg.zig) || decide (0 < i) || decide (0 < run)
  let r1 : BVec := if doMatvec then cfg.bA.bgs_apply x cfg.b i else cfg.b
  let Xi : Vec := MapExtractor.ExtractVector x i cfg.domME.thyraMode
  let ri : Vec := MapExtractor.ExtractVector r1 i cfg.rangeME.thyraMode
  let tXi : Vec := cfg.domME.getVector i cfg.domME.thyraMode
  let tXiOut : Vec := inv.apply tXi ri false
  let Xi2 : Vec := vecUpdate cfg.omega tXiOut Xi
  (x.set i Xi2,
    { run := run, row := i, xBefore := x, matvecApplied := doMatvec, ri := ri,
      tXiIn := tXi, zeroGuessArg := false, tXiOut := tXiOut, xAfter := x.set i Xi2 })

/-- The inner loop `for (size_t i = 0; i < Inverse_.size(); i++)` (line 248),
recursing structurally over the list of remaining sub-smoothers with `i` the
index of the first one.  Returns the final `x` and the step events in
order. -/
def runRows (cfg : ApplyConfig) (run : Int) : Nat → List SubSmoother → BVec →
    BVec × List StepEvent
  | _, [], x => (x, [])
  | i, inv :: invs, x =>
    let p := rowStep cfg run i inv x
    let q := runRows cfg run (i + 1) invs p.1
    (q.1, p.2 :: q.2)

/-- The outer Richardson loop `for (run = 0; run < nSweeps; ++run)`
(line 245), iterating over the given list of sweep indices. -/
def runSweeps (cfg : ApplyConfig) : List Int → BVec → BVec × List StepEvent
  | [], x => (x, [])
  | r :: rs, x =>
    let p := runRows cfg r 0 cfg.Inverse x
    let q := runSweeps cfg rs p.1
    (q.1, p.2 ++ q.2)

/-- The sweep indices the outer loop visits: `0, 1, ..., nSweeps - 1` for a
positive `nSweeps` and none at all otherwise (the guard `run < nSweeps`
fails immediately for `nSweeps ≤ 0`). -/
def sweepIdxs (nSweeps : Int) : List Int :=
  (List.range nSweeps.toNat).map (fun (k : Nat) => (k : Int))

/-- The algorithmic core of `Apply` on already-blocked vectors: the
zero-initial-guess reset (lines 241-242) followed by the sweep loop
(lines 245-268). -/
def ApplyCore (cfg : ApplyConfig) (nSweeps : Int) (x0 : BVec) : BVec × List StepEvent :=
  let x1 := if cfg.zig then putScalarZero x0 else x0
  runSweeps cfg (sweepIdxs nSweeps) x1

/-- A caller-supplied multivector: either flat (unpartitioned) or already
block-partitioned, mirroring the `rcp_dynamic_cast<BlockedMultiVector>`
dispatch at lines 169-170. -/
inductive MV where
  | flat : Vec → MV
  | blocked : BVec → MV
deriving DecidableEq, Repr

/-- The blocked working copy of the solution vector `X`: a flat `X` is
wrapped over the operator's blocked domain map (lines 196-200, which also
set `bCopyResultX`), an already-blocked `X` is used as is. -/
def applyX0 (bA : BlockedCrsMatrix) (X : MV) : BVec :=
  match X with
  | MV.flat v => splitVec bA.domainMapExtractor.sizes v
  | MV.blocked bv => bv

/-- The blocked working copy of the right-hand side `B`: a flat `B` is
wrapped over the operator's blocked range map (lines 202-205). -/
def applyB (bA : BlockedCrsMatrix) (B : MV) : BVec :=
  match B with
  | MV.flat v => splitVec bA.rangeMapExtractor.sizes v
  | MV.blocked bv => bv

/-- The loop configuration assembled by `Apply` (lines 232-238 and the
member reads inside the loop): the blocked operator, `Inverse_`, the stored
range and domain map extractors, the wrapped right-hand side, and the
parameter-list entries `"Damping factor"` and the `InitialGuessIsZero`
argument. -/
def applyCfg (s : SmootherState) (bA : BlockedCrsMatrix) (B : MV) (zig : Bool) : ApplyConfig :=
  { bA := bA, Inverse := s.Inverse_, rangeME := s.rangeMapExtractor_,
    domME := s.domainMapExtractor_, b := applyB bA B, omega := s.dampingFactor,
    zig := zig }

/-- Translation of `BlockedGaussSeidelSmoother::Apply` (lines 131-274) for an
operator without a reordering plan (the `ReorderedBlockedCrsMatrix` branch at
lines 176-228 only re-labels sub-vector boundaries and is not exercised by
the claims): the setup guard (line 133), the operator cast check (line 168),
the wrapping of flat `X`/`B` into blocked vectors, the core loop, and the
final `Merge` copy-back into the caller's flat `X`
(`X.update(one, *Xmerged, zero)`, lines 270-273).  Returns the contents the
caller's `X` holds on return, in the caller's own (flat or blocked)
representation, together with the step events. -/
def Apply (s : SmootherState) (X B : MV) (InitialGuessIsZero : Bool) :
    Except MueLuError (MV × List StepEvent) :=
  if s.isSetup = false then Except.error MueLuError.RuntimeError
  else
    match (s.A_.getD Matrix.plain).toBlockedCrsMatrix with
    | none => Except.error MueLuError.RuntimeError
    | some bA =>
      let out := ApplyCore (applyCfg s bA B InitialGuessIsZero) s.sweeps (applyX0 bA X)
      match X with
      | MV.flat _ => Except.ok (MV.flat (mergeVec out.1), out.2)
      | MV.blocked _ => Except.ok (MV.blocked out.1, out.2)

/-- The value `x` is left with when `Apply` performs no numeric work beyond
the zero-initial-guess reset: the all-zero vector of the same shape. -/
def zeroedMV : MV → MV
  | MV.flat v => MV.flat (v.map fun _ => (0 : SC))
  | MV.blocked bv => MV.blocked (putScalarZero bv)

/-- The solution state entering sweep `r`: the initial (possibly zeroed)
blocked vector with the full sweeps `0 .. r-1` applied to it. -/
def xAtSweepStart (cfg : ApplyConfig) (x0 : BVec) (r : Int) : BVec :=
  (runSweeps cfg (sweepIdxs r) (if cfg.zig then putScalarZero x0 else x0)).1

/-- A chained trace: each event's `xBefore` is the current solution state and
its `xAfter` is the state handed to the next event, ending in `z`. -/
inductive EvChain : BVec → List StepEvent → BVec → Prop where
  | nil : ∀ x, EvChain x [] x
  | cons : ∀ (x : BVec) (e : StepEvent) (es : List StepEvent) (z : BVec),
      e.xBefore = x → EvChain e.xAfter es z → EvChain x (e :: es) z

/-- Concrete instances used by the witnesses and counterexamples below.
`exSub` is a sub-smoother that fills the correction with the leading
residual entry (an exact solve for a 1×1 identity diagonal block),
`exA1`/`exA2` are 1-block and 2-block operators (the latter with
lower-triangular coupling), and `exSetup1`/`exSetup2` are smoother states
obtained by a successful `Setup` on them. -/
def exSub : SubSmoother :=
  ⟨fun t r _ => t.map (fun _ => r.headD 0), by intro t r z; simp⟩

def exME1 : MapExtractor := ⟨[1], false⟩
def exME2 : MapExtractor := ⟨[1, 1], false⟩

def exA1 : BlockedCrsMatrix := ⟨exME1, exME1, fun i x => x.getD i []⟩
def exA2 : BlockedCrsMatrix :=
  ⟨exME2, exME2, fun i x =>
    if i = 0 then x.getD 0 []
    else List.zipWith (fun a b => a + b) (x.getD 0 []) (x.getD 1 [])⟩

def exFM : FactManagerEntry := ⟨exSub, false⟩

def exState1 : SmootherState := { SmootherState.default with FactManager_ := [exFM] }
def exSetup1 : SmootherState := (Setup exState1 (Matrix.blocked exA1)).1

def exState2 : SmootherState := { SmootherState.default with FactManager_ := [exFM, exFM] }
def exSetup2 : SmootherState := (Setup exState2 (Matrix.blocked exA2)).1


def exEvSkip : StepEvent :=
  { run := 0, row := 0, xBefore := [[0]], matvecApplied := false, ri := [5],
    tXiIn := [0], zeroGuessArg := false, tXiOut := [5], xAfter := [[5]] }

def exEvPlain : StepEvent :=
  { run := 0, row := 0, xBefore := [[2]], matvecApplied := true, ri := [3],
    tXiIn := [0], zeroGuessArg := false, tXiOut := [3], xAfter := [[5]] }

def exEvRow0 : StepEvent :=
  { run := 0, row := 0, xBefore := [[0], [0]], matvecApplied := true, ri := [1],
    tXiIn := [0], zeroGuessArg := false, tXiOut := [1], xAfter := [[1], [0]] }

def exEvRow1 : StepEvent :=
  { run := 0, row := 1, xBefore := [[1], [0]], matvecApplied := true, ri := [1],
    tXiIn := [0], zeroGuessArg := false, tXiOut := [1], xAfter := [[1], [1]] }

theorem getD_set_ne (l : BVec) (i j : Nat) (v : Vec) (h : i ≠ j) :
    (l.set i v).getD j [] = l.getD j [] := by
  simp [List.getD, List.getElem?_set, h]

theorem set_getD_self (l : BVec) (i : Nat) : l.set i (l.getD i []) = l := by
  apply List.ext_getElem?
  intro j
  rw [List.getElem?_set]
  by_cases h : i = j
  · subst h
    by_cases hl : i < l.length
    · simp [List.getD, List.getElem?_eq_getElem hl, hl]
    · simp [hl, List.getElem?_eq_none (Nat.le_of_not_lt hl)]
  · simp [h]

theorem vecUpdate_zero (x a : Vec) (h : x.length ≤ a.length) : vecUpdate 0 a x = x := by
  induction x generalizing a with
  | nil => rfl
  | cons xi xs ih =>
    cases a with
    | nil => simp at h
    | cons ai as =>
      show (xi + 0 * ai) :: vecUpdate 0 as xs = xi :: xs
      rw [zero_mul, add_zero]
      exact congrArg (fun t => xi :: t) (ih as (Nat.le_of_succ_le_succ h))

theorem mergeVec_splitVec (ns : List Nat) (v : Vec) (h : ns.sum = v.length) :
    mergeVec (splitVec ns v) = v := by
  induction ns generalizing v with
  | nil =>
    simp at h
    simp [mergeVec, splitVec, List.eq_nil_of_length_eq_zero h.symm]
  | cons n ns ih =>
    simp only [splitVec, mergeVec, List.flatten_cons]
    rw [show (splitVec ns (v.drop n)).flatten = mergeVec (splitVec ns (v.drop n)) from rfl]
    rw [ih (v.drop n) (by simp only [List.sum_cons] at h; simp [List.length_drop]; omega)]
    exact List.take_append_drop n v

theorem mergeVec_putScalarZero (bv : BVec) :
    mergeVec (putScalarZero bv) = (mergeVec bv).map (fun _ => (0 : SC)) := by
  simp [mergeVec, putScalarZero, List.map_flatten]

theorem putScalarZero_getD (bv : BVec) (j : Nat) :
    (putScalarZero bv).getD j [] = (bv.getD j []).map (fun _ => (0 : SC)) := by
  by_cases h : j < bv.length
  · simp [putScalarZero, List.getD, List.getElem?_eq_getElem, h]
  · simp [putScalarZero, List.getD, List.getElem?_eq_none, Nat.le_of_not_lt h]

theorem splitVec_getD_length (ns : List Nat) (v : Vec) (i : Nat) :
    ((splitVec ns v).getD i []).length ≤ ns.getD i 0 := by
  induction ns generalizing v i with
  | nil => simp [splitVec, List.getD]
  | cons n ns ih =>
    cases i with
    | zero => simp [splitVec, List.getD]
    | succ i => simpa [splitVec, List.getD] using ih (v.drop n) i

theorem rowStep_x (cfg : ApplyConfig) (run : Int) (i : Nat) (inv : SubSmoother) (x : BVec)
    (j : Nat) (h : j ≠ i) : (rowStep cfg run i inv x).1.getD j [] = x.getD j [] := by
  exact getD_set_ne x i j _ (fun he => h he.symm)

theorem runRows_events (cfg : ApplyConfig) (run : Int) :
    ∀ (invs : List SubSmoother) (i : Nat) (x : BVec),
    ∀ e ∈ (runRows cfg run i invs x).2,
      e.run = run ∧ i ≤ e.row ∧
      e.matvecApplied = ((!cfg.zig) || decide (0 < e.row) || decide (0 < run)) ∧
      e.ri = (if e.matvecApplied = true then cfg.bA.bgs_apply e.xBefore cfg.b e.row
              else cfg.b).getD e.row [] ∧
      e.tXiIn = cfg.domME.getVector e.row cfg.domME.thyraMode ∧
      e.zeroGuessArg = false ∧
      e.xAfter = e.xBefore.set e.row
        (vecUpdate cfg.omega e.tXiOut (e.xBefore.getD e.row [])) ∧
      (∀ j, e.row ≤ j → e.xBefore.getD j [] = x.getD j []) := by
  intro invs
  induction invs with
  | nil => intro i x e he; simp [runRows] at he
  | cons inv invs ih =>
    intro i x e he
    simp only [runRows, List.mem_cons] at he
    rcases he with he | he
    · subst he
      refine ⟨rfl, Nat.le_refl i, rfl, ?_, rfl, rfl, rfl, fun j _ => rfl⟩
      rfl
    · obtain ⟨h1, h2, h3, h4, h5, h6, h7, h8⟩ := ih (i + 1) (rowStep cfg run i inv x).1 e he
      refine ⟨h1, Nat.le_of_succ_le h2, h3, h4, h5, h6, h7, fun j hj => ?_⟩
      rw [h8 j hj, rowStep_x]
      omega

theorem EvChain.append {x y z : BVec} {es fs : List StepEvent}
    (h1 : EvChain x es y) (h2 : EvChain y fs z) : EvChain x (es ++ fs) z := by
  induction h1 with
  | nil => exact h2
  | cons x e es z hb hc ih => exact EvChain.cons _ _ _ _ hb (ih h2)

theorem runRows_chain (cfg : ApplyConfig) (run : Int) :
    ∀ (invs : List SubSmoother) (i : Nat) (x : BVec),
      EvChain x (runRows cfg run i invs x).2 (runRows cfg run i invs x).1 := by
  intro invs
  induction invs with
  | nil => intro i x; exact EvChain.nil x
  | cons inv invs ih =>
    intro i x
    exact EvChain.cons _ _ _ _ rfl (ih (i + 1) (rowStep cfg run i inv x).1)

theorem runSweeps_chain (cfg : ApplyConfig) :
    ∀ (rs : List Int) (x : BVec),
      EvChain x (runSweeps cfg rs x).2 (runSweeps cfg rs x).1 := by
  intro rs
  induction rs with
  | nil => intro x; exact EvChain.nil x
  | cons r rs ih =>
    intro x
    exact EvChain.append (runRows_chain cfg r cfg.Inverse 0 x)
      (ih (runRows cfg r 0 cfg.Inverse x).1)

theorem EvChain.step {x z : BVec} {es : List StepEvent} (h : EvChain x es z) :
    ∀ (k : Nat) (e e2 : StepEvent), es.get? k = some e → es.get? (k + 1) = some e2 →
      e2.xBefore = e.xAfter := by
  induction h with
  | nil => intro k e e2 h1; simp at h1
  | cons x e es z hb hc ih =>
    intro k f f2 h1 h2
    cases k with
    | zero =>
      simp at h1
      subst h1
      cases hc with
      | nil => simp at h2
      | cons y g gs w hg hgs =>
        simp at h2
        subst h2
        exact hg
    | succ k => exact ih k f f2 h1 h2

theorem EvChain.head {x z : BVec} {es : List StepEvent} (h : EvChain x es z) :
    ∀ e, es.head? = some e → e.xBefore = x := by
  cases h with
  | nil => intro e he; simp at he
  | cons x g gs z hg hgs => intro e he; simp at he; subst he; exact hg

theorem runRows_map (cfg : ApplyConfig) (run : Int) :
    ∀ (invs : List SubSmoother) (i : Nat) (x : BVec),
      (runRows cfg run i invs x).2.map (fun e => (e.run, e.row)) =
        (List.range invs.length).map (fun k => (run, i + k)) := by
  intro invs
  induction invs with
  | nil => intro i x; simp [runRows]
  | cons inv invs ih =>
    intro i x
    simp only [runRows, List.map_cons, List.length_cons, List.range_succ_eq_map,
      List.map_map]
    refine congrArg₂ (fun a b => a :: b) rfl ?_
    rw [ih (i + 1) (rowStep cfg run i inv x).1]
    apply List.map_congr_left
    intro k _
    simp [Function.comp]
    omega

theorem runSweeps_map (cfg : ApplyConfig) :
    ∀ (rs : List Int) (x : BVec),
      (runSweeps cfg rs x).2.map (fun e => (e.run, e.row)) =
        (rs.map (fun r => (List.range cfg.Inverse.length).map (fun i => (r, i)))).flatten := by
  intro rs
  induction rs with
  | nil => intro x; simp [runSweeps]
  | cons r rs ih =>
    intro x
    simp only [runSweeps, List.map_cons, List.flatten_cons, List.map_append]
    rw [runRows_map, ih]
    refine congrArg₂ (fun a b => a ++ b) ?_ rfl
    apply List.map_congr_left
    intro k _
    simp

theorem runSweeps_events (cfg : ApplyConfig) :
    ∀ (rs : List Int) (x : BVec), ∀ e ∈ (runSweeps cfg rs x).2,
      e.run ∈ rs ∧
      e.matvecApplied = ((!cfg.zig) || decide (0 < e.row) || decide (0 < e.run)) ∧
      e.ri = (if e.matvecApplied = true then cfg.bA.bgs_apply e.xBefore cfg.b e.row
              else cfg.b).getD e.row [] ∧
      e.tXiIn = cfg.domME.getVector e.row cfg.domME.thyraMode ∧
      e.zeroGuessArg = false ∧
      e.xAfter = e.xBefore.set e.row
        (vecUpdate cfg.omega e.tXiOut (e.xBefore.getD e.row [])) := by
  intro rs
  induction rs with
  | nil => intro x e he; simp [runSweeps] at he
  | cons r rs ih =>
    intro x e he
    simp only [runSweeps, List.mem_append] at he
    rcases he with he | he
    · obtain ⟨h1, _, h3, h4, h5, h6, h7, _⟩ := runRows_events cfg r cfg.Inverse 0 x e he
      subst h1
      exact ⟨List.mem_cons_self _ _, h3, h4, h5, h6, h7⟩
    · obtain ⟨h1, h3, h4, h5, h6, h7⟩ := ih (runRows cfg r 0 cfg.Inverse x).1 e he
      exact ⟨List.mem_cons_of_mem r h1, h3, h4, h5, h6, h7⟩

theorem runSweeps_append (cfg : ApplyConfig) :
    ∀ (rs rs2 : List Int) (x : BVec),
      runSweeps cfg (rs ++ rs2) x =
        ((runSweeps cfg rs2 (runSweeps cfg rs x).1).1,
         (runSweeps cfg rs x).2 ++ (runSweeps cfg rs2 (runSweeps cfg rs x).1).2) := by
  intro rs
  induction rs with
  | nil => intro rs2 x; simp [runSweeps]
  | cons r rs ih =>
    intro rs2 x
    rw [show runSweeps cfg ((r :: rs) ++ rs2) x =
        ((runSweeps cfg (rs ++ rs2) (runRows cfg r 0 cfg.Inverse x).1).1,
         (runRows cfg r 0 cfg.Inverse x).2 ++
           (runSweeps cfg (rs ++ rs2) (runRows cfg r 0 cfg.Inverse x).1).2) from rfl]
    rw [ih rs2 (runRows cfg r 0 cfg.Inverse x).1]
    rw [show runSweeps cfg (r :: rs) x =
        ((runSweeps cfg rs (runRows cfg r 0 cfg.Inverse x).1).1,
         (runRows cfg r 0 cfg.Inverse x).2 ++
           (runSweeps cfg rs (runRows cfg r 0 cfg.Inverse x).1).2) from rfl]
    simp [List.append_assoc]

theorem sweepIdxs_succ (n : Nat) :
    sweepIdxs ((n : Int) + 1) = sweepIdxs (n : Int) ++ [(n : Int)] := by
  have h : ((n : Int) + 1).toNat = (n : Int).toNat + 1 := by omega
  simp [sweepIdxs, h, List.range_succ]

theorem runSweeps_pres (cfg : ApplyConfig) (x1 : BVec) :
    ∀ (n : Nat), ∀ e ∈ (runSweeps cfg (sweepIdxs (n : Int)) x1).2,
      0 ≤ e.run ∧ e.run < (n : Int) ∧
      (∀ j, e.row ≤ j →
        e.xBefore.getD j [] = (runSweeps cfg (sweepIdxs e.run) x1).1.getD j []) := by
  intro n
  induction n with
  | zero => intro e he; simp [sweepIdxs, runSweeps] at he
  | succ n ih =>
    intro e he
    rw [show ((n + 1 : Nat) : Int) = (n : Int) + 1 by omega, sweepIdxs_succ,
      runSweeps_append] at he
    simp only [List.mem_append] at he
    rcases he with he | he
    · obtain ⟨h1, h2, h3⟩ := ih e he
      exact ⟨h1, lt_trans h2 (by omega), h3⟩
    · simp only [runSweeps, List.append_nil] at he
      obtain ⟨h1, _, _, _, _, _, _, h8⟩ :=
        runRows_events cfg (n : Int) cfg.Inverse 0
          (runSweeps cfg (sweepIdxs (n : Int)) x1).1 e he
      refine ⟨by rw [h1]; omega, by rw [h1]; omega, ?_⟩
      intro j hj
      rw [h1]
      exact h8 j hj

theorem rowStep_zero_damping (cfg : ApplyConfig) (run : Int) (i : Nat) (inv : SubSmoother)
    (x : BVec) (hω : cfg.omega = 0)
    (hlen : (x.getD i []).length ≤ cfg.domME.sizes.getD i 0) :
    (rowStep cfg run i inv x).1 = x := by
  show x.set i (vecUpdate cfg.omega _ _) = x
  rw [hω, vecUpdate_zero]
  · exact set_getD_self x i
  · rw [inv.apply_length]
    simpa [MapExtractor.ExtractVector, MapExtractor.getVector] using hlen

theorem runRows_zero_damping (cfg : ApplyConfig) (run : Int) (hω : cfg.omega = 0) :
    ∀ (invs : List SubSmoother) (i : Nat) (x : BVec),
      (∀ j, (x.getD j []).length ≤ cfg.domME.sizes.getD j 0) →
      (runRows cfg run i invs x).1 = x := by
  intro invs
  induction invs with
  | nil => intro i x _; rfl
  | cons inv invs ih =>
    intro i x hx
    simp only [runRows]
    rw [rowStep_zero_damping cfg run i inv x hω (hx i)]
    exact ih (i + 1) x hx

theorem runSweeps_zero_damping (cfg : ApplyConfig) (hω : cfg.omega = 0) :
    ∀ (rs : List Int) (x : BVec),
      (∀ j, (x.getD j []).length ≤ cfg.domME.sizes.getD j 0) →
      (runSweeps cfg rs x).1 = x := by
  intro rs
  induction rs with
  | nil => intro x _; rfl
  | cons r rs ih =>
    intro x hx
    simp only [runSweeps]
    rw [runRows_zero_damping cfg r hω cfg.Inverse 0 x hx]
    exact ih x hx

theorem sweepIdxs_nonneg (n : Int) : ∀ r ∈ sweepIdxs n, 0 ≤ r := by
  intro r hr
  obtain ⟨k, _, hk⟩ := List.mem_map.mp hr
  rw [← hk]
  exact Int.natCast_nonneg k

theorem sweepIdxs_toNat (n : Int) : sweepIdxs n = sweepIdxs ((n.toNat : Nat) : Int) := by
  have h : (((n.toNat : Nat) : Int)).toNat = n.toNat := by omega
  unfold sweepIdxs
  rw [h]

theorem Apply_ok_trace (s : SmootherState) (bA : BlockedCrsMatrix) (X B : MV) (zig : Bool)
    (out : MV × List StepEvent)
    (hA : s.A_ = some (Matrix.blocked bA))
    (hok : Apply s X B zig = Except.ok out) :
    out.2 = (ApplyCore (applyCfg s bA B zig) s.sweeps (applyX0 bA X)).2 := by
  simp only [Apply, hA, Option.getD, Matrix.toBlockedCrsMatrix] at hok
  split at hok
  · exact Except.noConfusion hok
  · cases X with
    | flat v =>
      injection hok with h
      rw [← h]
    | blocked bv =>
      injection hok with h
      rw [← h]

/-- C9: for every call of `AddFactoryManager` (the spec's `Register`) with a
negative position, the call fails with `InvalidArgument` and the whole
smoother state — in particular the registry `FactManager_` — is left
unchanged. -/
theorem AddFactoryManager_negative_position (s : SmootherState) (fm : FactManagerEntry)
    (pos : Int) (h : pos < 0) :
    AddFactoryManager s fm pos = (s, some MueLuError.InvalidArgument) := by
  simp [AddFactoryManager, h]

/-- Witness for C9 at the concrete position `-1` on the default state. -/
theorem AddFactoryManager_negative_position_witness :
    AddFactoryManager SmootherState.default exFM (-1) =
      (SmootherState.default, some MueLuError.InvalidArgument) :=
  AddFactoryManager_negative_position SmootherState.default exFM (-1) (by decide)

/-- C2 (amended): for every state and blocked operator, `Setup` succeeds iff
the operator's block row count and block column count both equal the number
of registered sub-smoother entries; any mismatch makes `Setup` fail with
`ConfigurationError`, and the failing call commits no setup state (the flag,
per-row captures and map extractors are untouched) — except that the
operator reference `A_` has already been overwritten, because the source
assigns `A_` (line 102) before the validation (lines 107-108).  The original
claim's "no state is committed" is refuted by `Setup_mismatch_state_committed`. -/
theorem Setup_succeeds_iff (s : SmootherState) (bA : BlockedCrsMatrix) :
    ((Setup s (Matrix.blocked bA)).2 = none ↔
      bA.Rows = s.FactManager_.length ∧ bA.Cols = s.FactManager_.length) ∧
    ((Setup s (Matrix.blocked bA)).2 ≠ none →
      (Setup s (Matrix.blocked bA)).2 = some MueLuError.ConfigurationError ∧
      (Setup s (Matrix.blocked bA)).1 = { s with A_ := some (Matrix.blocked bA) }) := by
  by_cases h1 : bA.Rows = s.FactManager_.length <;>
    by_cases h2 : bA.Cols = s.FactManager_.length <;>
    simp [Setup, Matrix.toBlockedCrsMatrix, h1, h2]

/-- Witness for C2 on a matching configuration: one registered entry and a
1×1-block operator make `Setup` succeed. -/
theorem Setup_succeeds_iff_witness :
    (Setup exState1 (Matrix.blocked exA1)).2 = none :=
  (Setup_succeeds_iff exState1 exA1).1.mpr ⟨by decide, by decide⟩

/-- Counterexample for C2 as stated: on the default state (empty registry,
`A_` null) a 1-block operator mismatches, `Setup` fails with
`ConfigurationError`, yet the state was mutated — `A_` now holds the
rejected operator. -/
theorem Setup_mismatch_state_committed :
    (Setup SmootherState.default (Matrix.blocked exA1)).2 = some MueLuError.ConfigurationError ∧
    SmootherState.default.A_.isSome = false ∧
    (Setup SmootherState.default (Matrix.blocked exA1)).1.A_.isSome = true :=
  ⟨rfl, rfl, rfl⟩

/-- C5 (amended): calling `Setup` again on an already-set-up smoother with a
still-matching configuration never fails (the prior set-up state only
produces a warning) and it re-validates and overwrites the operator
reference and map extractors; but the per-block-row captures are
`push_back`-appended to the existing `Inverse_` and `bIsBlockedOperator_`
vectors rather than re-captured from scratch, so after a second `Setup`
those lists hold the entries of both calls — not the state a single
successful `Setup` would produce (refuted by `Setup_twice_not_single_state`). -/
theorem Setup_twice_appends (s : SmootherState) (bA : BlockedCrsMatrix)
    (hs : s.isSetup = true)
    (h1 : bA.Rows = s.FactManager_.length) (h2 : bA.Cols = s.FactManager_.length) :
    (Setup s (Matrix.blocked bA)).2 = none ∧
    (Setup s (Matrix.blocked bA)).1.Inverse_ =
      s.Inverse_ ++ s.FactManager_.map (fun fm => fm.smoother) ∧
    (Setup s (Matrix.blocked bA)).1.bIsBlockedOperator_ =
      s.bIsBlockedOperator_ ++ s.FactManager_.map (fun fm => fm.subAIsBlocked) ∧
    (Setup s (Matrix.blocked bA)).1.isSetup = true ∧
    (Setup s (Matrix.blocked bA)).1.rangeMapExtractor_ = bA.rangeMapExtractor ∧
    (Setup s (Matrix.blocked bA)).1.domainMapExtractor_ = bA.domainMapExtractor := by
  simp [Setup, Matrix.toBlockedCrsMatrix, h1, h2]

/-- Witness for C5: a second `Setup` on the already-set-up 1-block fixture
succeeds and appends to `Inverse_`. -/
theorem Setup_twice_appends_witness :
    (Setup exSetup1 (Matrix.blocked exA1)).2 = none ∧
    (Setup exSetup1 (Matrix.blocked exA1)).1.Inverse_ =
      exSetup1.Inverse_ ++ exSetup1.FactManager_.map (fun fm => fm.smoother) :=
  ⟨(Setup_twice_appends exSetup1 exA1 rfl rfl rfl).1,
   (Setup_twice_appends exSetup1 exA1 rfl rfl rfl).2.1⟩

/-- Counterexample for C5 as stated: after a second successful `Setup` the
fixture holds two bound sub-smoothers and two blockedness flags where a
single `Setup` leaves one, so the smoother is not in the state a single
successful `Setup` would produce. -/
theorem Setup_twice_not_single_state :
    (Setup exSetup1 (Matrix.blocked exA1)).2 = none ∧
    (Setup exSetup1 (Matrix.blocked exA1)).1.Inverse_.length = 2 ∧
    exSetup1.Inverse_.length = 1 ∧
    (Setup exSetup1 (Matrix.blocked exA1)).1.bIsBlockedOperator_.length = 2 :=
  ⟨rfl, rfl, rfl, rfl⟩

/-- C6 (amended): `Copy()` returns an independent new object that shares the
instance's configuration — and, because it is created by the C++
implicitly-generated copy constructor, also carries the full current runtime
state: the setup flag, operator reference, bound sub-smoothers, blockedness
flags and partition descriptors are all copied.  The original claim that the
copy "is not in the set-up state and holds no bound operator, sub-smoothers,
or partition descriptors" is refuted by `Copy_carries_runtime_state`. -/
theorem Copy_shares_full_state (s : SmootherState) :
    (Copy s).FactManager_ = s.FactManager_ ∧ (Copy s).isSetup = s.isSetup ∧
    (Copy s).A_ = s.A_ ∧ (Copy s).Inverse_ = s.Inverse_ ∧
    (Copy s).bIsBlockedOperator_ = s.bIsBlockedOperator_ ∧
    (Copy s).rangeMapExtractor_ = s.rangeMapExtractor_ ∧
    (Copy s).domainMapExtractor_ = s.domainMapExtractor_ ∧
    (Copy s).sweeps = s.sweeps ∧ (Copy s).dampingFactor = s.dampingFactor :=
  ⟨rfl, rfl, rfl, rfl, rfl, rfl, rfl, rfl, rfl⟩

/-- Counterexample for C6 as stated: the copy of a set-up smoother is itself
in the set-up state and holds a bound operator, a bound sub-smoother and a
captured partition descriptor. -/
theorem Copy_carries_runtime_state :
    (Copy exSetup1).isSetup = true ∧
    (Copy exSetup1).Inverse_.length = 1 ∧
    (Copy exSetup1).A_.isSome = true ∧
    (Copy exSetup1).rangeMapExtractor_.NumMaps = 1 :=
  ⟨rfl, rfl, rfl, rfl⟩

/-- C10: with a negative configured sweep count, `Apply` behaves exactly as
with sweep count 0 (the loop guard `run < nSweeps` fails immediately), and
any successful call produces an empty step trace, i.e. executes no sweeps;
by `Apply_zero_sweeps` this means `x` is modified only by the
zero-initial-guess reset and the flatten-back copy. -/
theorem Apply_negative_sweeps (s : SmootherState) (X B : MV) (zig : Bool)
    (h : s.sweeps < 0) :
    Apply s X B zig = Apply { s with sweeps := 0 } X B zig ∧
    (∀ out, Apply s X B zig = Except.ok out → out.2 = []) := by
  have hto : s.sweeps.toNat = 0 := by omega
  have hsw : sweepIdxs s.sweeps = [] := by
    unfold sweepIdxs
    rw [hto]
    rfl
  have hac : ∀ cfg x0, ApplyCore cfg s.sweeps x0 = ApplyCore cfg 0 x0 := by
    intro cfg x0
    simp only [ApplyCore, hsw, show sweepIdxs 0 = [] from rfl]
  constructor
  · simp only [Apply, hac]
    simp [applyCfg]
  · intro out hout
    simp only [Apply] at hout
    split at hout
    · exact Except.noConfusion hout
    · split at hout
      · exact Except.noConfusion hout
      · split at hout <;>
        · injection hout with h
          subst h
          simp [ApplyCore, hsw, runSweeps]

/-- Witness for C10 at the concrete sweep count `-3`. -/
theorem Apply_negative_sweeps_witness :
    Apply { exSetup1 with sweeps := -3 } (MV.blocked [[2]]) (MV.blocked [[1]]) false =
      Apply { { exSetup1 with sweeps := -3 } with sweeps := 0 }
        (MV.blocked [[2]]) (MV.blocked [[1]]) false :=
  (Apply_negative_sweeps { exSetup1 with sweeps := -3 } (MV.blocked [[2]])
    (MV.blocked [[1]]) false (by decide)).1

/-- C7: with sweep count 0 (and a flat `x` whose length matches the
operator's blocked domain map, the shape every real call has), `Apply`
returns `x` unchanged — except for the reset to zero when
`zeroInitialGuess` is true — and performs no block-row steps; this covers
both an already-blocked `x` and a flat `x`, where the flatten-back merge
reproduces the entry values. -/
theorem Apply_zero_sweeps (s : SmootherState) (bA : BlockedCrsMatrix) (X B : MV) (zig : Bool)
    (hset : s.isSetup = true) (hA : s.A_ = some (Matrix.blocked bA)) (hsw : s.sweeps = 0)
    (hflat : ∀ v, X = MV.flat v → bA.domainMapExtractor.sizes.sum = v.length) :
    Apply s X B zig = Except.ok ((if zig then zeroedMV X else X), []) := by
  simp only [Apply, hset, hA, Option.getD, Matrix.toBlockedCrsMatrix, hsw]
  cases X with
  | blocked bv =>
    cases zig <;> simp [ApplyCore, sweepIdxs, runSweeps, zeroedMV, applyCfg, applyX0]
  | flat v =>
    have hv := hflat v rfl
    cases zig
    · simp [ApplyCore, sweepIdxs, runSweeps, zeroedMV, applyCfg, applyX0,
        mergeVec_splitVec _ _ hv]
    · simp [ApplyCore, sweepIdxs, runSweeps, zeroedMV, applyCfg, applyX0,
        mergeVec_putScalarZero, mergeVec_splitVec _ _ hv]

/-- Witness for C7: a flat 1-entry vector passes through a 0-sweep `Apply`
unchanged. -/
theorem Apply_zero_sweeps_witness :
    Apply { exSetup1 with sweeps := 0 } (MV.flat [7]) (MV.blocked [[1]]) false =
      Except.ok (MV.flat [7], []) :=
  Apply_zero_sweeps { exSetup1 with sweeps := 0 } exA1 (MV.flat [7]) (MV.blocked [[1]])
    false rfl rfl rfl
    (fun v hv => by cases hv; decide)

/-- C8 (amended): with damping factor 0 (and conforming vector shapes),
`Apply` leaves `x` unchanged after any number of sweeps — apart from setting
`x` to zero when `zeroInitialGuess` is true, the same carve-out claim C7
makes, since the reset at lines 241-242 happens regardless of the damping
factor (refuted on the original claim by
`Apply_zero_damping_zig_changes_x`).  Each per-block update adds
`0 · Δx_i = 0`. -/
theorem Apply_zero_damping (s : SmootherState) (bA : BlockedCrsMatrix) (X B : MV) (zig : Bool)
    (hset : s.isSetup = true) (hA : s.A_ = some (Matrix.blocked bA))
    (homega : s.dampingFactor = 0)
    (hme : s.domainMapExtractor_ = bA.domainMapExtractor)
    (hflat : ∀ v, X = MV.flat v → bA.domainMapExtractor.sizes.sum = v.length)
    (hblk : ∀ bv j, X = MV.blocked bv →
      (bv.getD j []).length ≤ bA.domainMapExtractor.sizes.getD j 0) :
    Except.map Prod.fst (Apply s X B zig) = Except.ok (if zig then zeroedMV X else X) := by
  have hwc : (applyCfg s bA B zig).omega = 0 := homega
  have hsz : (applyCfg s bA B zig).domME.sizes = bA.domainMapExtractor.sizes := by
    show s.domainMapExtractor_.sizes = bA.domainMapExtractor.sizes
    rw [hme]
  simp only [Apply, hset, hA, Option.getD, Matrix.toBlockedCrsMatrix]
  cases X with
  | blocked bv =>
    have hx1 : ∀ j, (((if zig then putScalarZero bv else bv) : BVec).getD j []).length ≤
        (applyCfg s bA B zig).domME.sizes.getD j 0 := by
      intro j
      rw [hsz]
      cases zig with
      | false => exact hblk bv j rfl
      | true =>
        show ((putScalarZero bv).getD j []).length ≤ bA.domainMapExtractor.sizes.getD j 0
        rw [putScalarZero_getD, List.length_map]
        exact hblk bv j rfl
    have hrun := runSweeps_zero_damping (applyCfg s bA B zig) hwc (sweepIdxs s.sweeps)
      (if zig then putScalarZero bv else bv) hx1
    show Except.ok (MV.blocked
      (runSweeps (applyCfg s bA B zig) (sweepIdxs s.sweeps)
        (if zig then putScalarZero bv else bv)).1) = _
    rw [hrun]
    cases zig <;> simp [zeroedMV]
  | flat v =>
    have hv := hflat v rfl
    have hx1 : ∀ j, (((if zig then putScalarZero (splitVec bA.domainMapExtractor.sizes v)
          else splitVec bA.domainMapExtractor.sizes v) : BVec).getD j []).length ≤
        (applyCfg s bA B zig).domME.sizes.getD j 0 := by
      intro j
      rw [hsz]
      cases zig with
      | false => exact splitVec_getD_length _ _ _
      | true =>
        show ((putScalarZero (splitVec bA.domainMapExtractor.sizes v)).getD j []).length ≤
          bA.domainMapExtractor.sizes.getD j 0
        rw [putScalarZero_getD, List.length_map]
        exact splitVec_getD_length _ _ _
    have hrun := runSweeps_zero_damping (applyCfg s bA B zig) hwc (sweepIdxs s.sweeps)
      (if zig then putScalarZero (splitVec bA.domainMapExtractor.sizes v)
       else splitVec bA.domainMapExtractor.sizes v) hx1
    show Except.ok (MV.flat (mergeVec
      (runSweeps (applyCfg s bA B zig) (sweepIdxs s.sweeps)
        (if zig then putScalarZero (splitVec bA.domainMapExtractor.sizes v)
         else splitVec bA.domainMapExtractor.sizes v)).1)) = _
    rw [hrun]
    cases zig
    · simp [zeroedMV, mergeVec_splitVec _ _ hv]
    · simp [zeroedMV, mergeVec_putScalarZero, mergeVec_splitVec _ _ hv]

/-- Witness for C8: with damping 0 and a nonzero initial guess kept, one
sweep returns the blocked `x` unchanged. -/
theorem Apply_zero_damping_witness :
    Except.map Prod.fst (Apply { exSetup1 with dampingFactor := 0 }
        (MV.blocked [[5]]) (MV.blocked [[1]]) false) =
      Except.ok (MV.blocked [[5]]) :=
  Apply_zero_damping { exSetup1 with dampingFactor := 0 } exA1
    (MV.blocked [[5]]) (MV.blocked [[1]]) false rfl rfl rfl rfl
    (fun v hv => by cases hv)
    (fun bv j hbv => by cases hbv; cases j <;> simp [exA1, exME1] <;> decide)

/-- Counterexample for C8 as stated: with damping factor 0 but
`zeroInitialGuess = true`, `Apply` returns `[[0]]` for the input `[[5]]` —
`x` is not left unchanged. -/
theorem Apply_zero_damping_zig_changes_x :
    (Apply { exSetup1 with dampingFactor := 0 }
        (MV.blocked [[5]]) (MV.blocked [[1]]) true).toOption.map Prod.fst =
      some (MV.blocked [[0]]) ∧
    (MV.blocked [[5]] : MV) ≠ MV.blocked [[0]] := by
  constructor
  · decide
  · decide

/-- C3: in every step of every successful `Apply`, the sub-residual handed
to the sub-smoother is block `i` of a full copy of `b` with the row
contribution `A[i][:] · x` subtracted — except exactly when the sweep index
is 0, the block row is 0 and `zeroInitialGuess` is true, in which case the
matrix-vector product is skipped and the residual used is (block `i` of)
`b` itself. -/
theorem Apply_residual_b_copy (s : SmootherState) (bA : BlockedCrsMatrix) (X B : MV)
    (zig : Bool) (out : MV × List StepEvent)
    (hA : s.A_ = some (Matrix.blocked bA))
    (hok : Apply s X B zig = Except.ok out) :
    ∀ e ∈ out.2,
      (e.matvecApplied = false ↔ zig = true ∧ e.run = 0 ∧ e.row = 0) ∧
      e.ri = (if e.matvecApplied = true
              then bA.bgs_apply e.xBefore (applyB bA B) e.row
              else applyB bA B).getD e.row [] := by
  intro e he
  rw [Apply_ok_trace s bA X B zig out hA hok] at he
  obtain ⟨hmem, hm, hri, _, _, _⟩ :=
    runSweeps_events (applyCfg s bA B zig) (sweepIdxs s.sweeps)
      (if (applyCfg s bA B zig).zig then putScalarZero (applyX0 bA X) else applyX0 bA X) e he
  have hnn : 0 ≤ e.run := sweepIdxs_nonneg s.sweeps e.run hmem
  refine ⟨?_, hri⟩
  rw [hm]
  show ((!zig) || decide (0 < e.row) || decide (0 < e.run)) = false ↔ _
  cases zig <;> simp <;> omega

/-- Witness for C3: in a 1-block run with `zeroInitialGuess = true` the
single step's matrix-vector product is skipped. -/
theorem Apply_residual_b_copy_witness : exEvSkip.matvecApplied = false := by
  have h := Apply_residual_b_copy exSetup1 exA1 (MV.blocked [[3]]) (MV.blocked [[5]]) true
    (MV.blocked [[5]], [exEvSkip]) rfl (by rfl)
  exact ((h exEvSkip (by decide)).1).mpr ⟨rfl, rfl, rfl⟩

/-- C4 (amended): in every block-row step of every successful `Apply`, the
sub-smoother is invoked on a zero-initialized row-`i`-shaped correction
vector (the `getVector` allocation of line 260) and the extracted row-`i`
sub-residual — but with the third boolean argument of the sub-smoother
`Apply` signature set to `false`, not `true`: line 263 reads
`Inverse_.at(i)->Apply(*tXi, *ri, false)` (refuted on the original claim by
`Apply_subsmoother_flag_false`). -/
theorem Apply_subsmoother_zero_init (s : SmootherState) (bA : BlockedCrsMatrix) (X B : MV)
    (zig : Bool) (out : MV × List StepEvent)
    (hA : s.A_ = some (Matrix.blocked bA))
    (hok : Apply s X B zig = Except.ok out) :
    ∀ e ∈ out.2,
      e.tXiIn = List.replicate (s.domainMapExtractor_.sizes.getD e.row 0) 0 ∧
      e.zeroGuessArg = false := by
  intro e he
  rw [Apply_ok_trace s bA X B zig out hA hok] at he
  obtain ⟨_, _, _, htXi, hzg, _⟩ :=
    runSweeps_events (applyCfg s bA B zig) (sweepIdxs s.sweeps)
      (if (applyCfg s bA B zig).zig then putScalarZero (applyX0 bA X) else applyX0 bA X) e he
  exact ⟨htXi, hzg⟩

/-- Witness for C4: the single step of a concrete 1-block run receives the
zero-initialized length-1 work vector and the literal flag `false`. -/
theorem Apply_subsmoother_zero_init_witness :
    exEvPlain.tXiIn = List.replicate (exSetup1.domainMapExtractor_.sizes.getD 0 0) 0 ∧
    exEvPlain.zeroGuessArg = false :=
  Apply_subsmoother_zero_init exSetup1 exA1 (MV.blocked [[2]]) (MV.blocked [[5]]) false
    (MV.blocked [[5]], [exEvPlain]) rfl (by rfl) exEvPlain (by decide)

/-- Counterexample for C4 as stated: a concrete successful `Apply` performs
one sub-smoother invocation and its third argument is `false`, not `true`. -/
theorem Apply_subsmoother_flag_false :
    (Apply exSetup1 (MV.blocked [[2]]) (MV.blocked [[5]]) false).toOption.map
        (fun out => out.2.map (fun e => e.zeroGuessArg)) = some [false] := by
  decide

/-- C1: every successful `Apply` processes, within each sweep, the block
rows in ascending order `i = 0 .. N-1` (first conjunct: the trace is the
ascending enumeration of sweep and row indices); the solution state each
step reads is exactly the state the previous step produced (second and
third conjuncts: the first step reads the initial, possibly zeroed, vector
and every later step reads its predecessor's `xAfter`); each step updates
only its own block, by the damped correction (fourth conjunct), computes
its residual from that partially-updated `xBefore` — so rows processed
earlier in the same sweep are visible — and on all blocks `j ≥ i` its
`xBefore` still agrees with the state the sweep was entered with, i.e. the
previous sweep's result or the initial guess. -/
theorem Apply_gauss_seidel_order (s : SmootherState) (bA : BlockedCrsMatrix) (X B : MV)
    (zig : Bool) (out : MV × List StepEvent)
    (hA : s.A_ = some (Matrix.blocked bA))
    (hok : Apply s X B zig = Except.ok out) :
    out.2.map (fun e => (e.run, e.row)) =
      ((sweepIdxs s.sweeps).map (fun r =>
        (List.range s.Inverse_.length).map (fun i => (r, i)))).flatten ∧
    (∀ e, out.2.head? = some e →
      e.xBefore = (if zig then putScalarZero (applyX0 bA X) else applyX0 bA X)) ∧
    (∀ k e e2, out.2.get? k = some e → out.2.get? (k + 1) = some e2 →
      e2.xBefore = e.xAfter) ∧
    (∀ e ∈ out.2,
      e.xAfter = e.xBefore.set e.row
        (vecUpdate s.dampingFactor e.tXiOut (e.xBefore.getD e.row [])) ∧
      e.ri = (if e.matvecApplied = true
              then bA.bgs_apply e.xBefore (applyB bA B) e.row
              else applyB bA B).getD e.row [] ∧
      (∀ j, e.row ≤ j →
        e.xBefore.getD j [] =
          (xAtSweepStart (applyCfg s bA B zig) (applyX0 bA X) e.run).getD j [])) := by
  have htr := Apply_ok_trace s bA X B zig out hA hok
  refine ⟨?_, ?_, ?_, ?_⟩
  · rw [htr]
    exact runSweeps_map (applyCfg s bA B zig) (sweepIdxs s.sweeps)
      (if (applyCfg s bA B zig).zig then putScalarZero (applyX0 bA X) else applyX0 bA X)
  · intro e he
    rw [htr] at he
    exact (runSweeps_chain (applyCfg s bA B zig) (sweepIdxs s.sweeps)
      (if (applyCfg s bA B zig).zig then putScalarZero (applyX0 bA X) else applyX0 bA X)).head e he
  · intro k e e2 h1 h2
    rw [htr] at h1 h2
    exact (runSweeps_chain (applyCfg s bA B zig) (sweepIdxs s.sweeps)
      (if (applyCfg s bA B zig).zig then putScalarZero (applyX0 bA X)
       else applyX0 bA X)).step k e e2 h1 h2
  · intro e he
    rw [htr] at he
    obtain ⟨_, _, hri, _, _, hxa⟩ :=
      runSweeps_events (applyCfg s bA B zig) (sweepIdxs s.sweeps)
        (if (applyCfg s bA B zig).zig then putScalarZero (applyX0 bA X) else applyX0 bA X) e he
    refine ⟨hxa, hri, ?_⟩
    have he2 : e ∈ (runSweeps (applyCfg s bA B zig) (sweepIdxs ((s.sweeps.toNat : Nat) : Int))
        (if (applyCfg s bA B zig).zig then putScalarZero (applyX0 bA X)
         else applyX0 bA X)).2 := by
      rw [← sweepIdxs_toNat]
      exact he
    obtain ⟨_, _, h3⟩ := runSweeps_pres (applyCfg s bA B zig)
      (if (applyCfg s bA B zig).zig then putScalarZero (applyX0 bA X) else applyX0 bA X)
      s.sweeps.toNat e he2
    intro j hj
    exact h3 j hj

/-- Witness for C1 on a concrete 2-block lower-triangular run: the trace
visits `(0,0), (0,1)` in ascending order. -/
theorem Apply_gauss_seidel_order_witness :
    ([exEvRow0, exEvRow1] : List StepEvent).map (fun e => (e.run, e.row)) =
      [((0 : Int), (0 : Nat)), (0, 1)] := by
  have h := (Apply_gauss_seidel_order exSetup2 exA2 (MV.blocked [[0], [0]])
      (MV.blocked [[1], [2]]) false (MV.blocked [[1], [1]], [exEvRow0, exEvRow1])
      rfl (by rfl)).1
  exact h.trans (by decide)

end MueLu
